import Mathlib

/-
  Verification development for the interval abstract interpreter
  (C++ sources: interval.hpp with the explicit emptiness flag,
  interval_store.hpp, location_base.hpp, equational_interpreter.hpp).

  The host integer type is the one the driver instantiates, int64_t.
  Machine arithmetic is modelled on Int with an explicit reduction into
  the signed 64-bit range (two's-complement wrap); C++ signed overflow is
  undefined behaviour, and the conventional shallow embedding of what the
  compiled program computes is the wrapped value.
-/

def minT : Int := -9223372036854775808

def maxT : Int := 9223372036854775807

def twoPow64 : Int := 18446744073709551616

/- Reduction of an exact integer result into the signed 64-bit range. -/
def wrap (x : Int) : Int := (x + 9223372036854775808) % 18446744073709551616 - 9223372036854775808

/- ret is the two's-complement reduction of the exact value: congruent to it
   modulo 2 to the 64 and inside the signed host range. -/
def isWrapOf (ret exact : Int) : Prop :=
  ret % twoPow64 = exact % twoPow64 ∧ minT ≤ ret ∧ ret ≤ maxT

/-
  IntervalT<T>: fields m_is_empty (default-member-initialised to false),
  m_lb, m_ub.  The two-value constructor sets only the bounds, so the
  emptiness flag of a freshly constructed interval is always false.
-/
structure IntervalT where
  is_empty : Bool
  lb : Int
  ub : Int
deriving Repr, DecidableEq

/- IntervalT(const T and lb, const T and ub): initialises m_lb, m_ub only;
   m_is_empty keeps its in-class initialiser false, even when lb > ub. -/
def IntervalT.make (lb ub : Int) : IntervalT := ⟨false, lb, ub⟩

/- IntervalT(const IntervalT<T> and other): copies m_lb and m_ub but not
   m_is_empty, which therefore resets to its default false. -/
def IntervalT.copy (a : IntervalT) : IntervalT := ⟨false, a.lb, a.ub⟩

/- The top element [MIN_T, MAX_T]. -/
def topInterval : IntervalT := ⟨false, minT, maxT⟩

/- join: union of two intervals, with the four emptiness cases of the code. -/
def IntervalT.join (a b : IntervalT) : IntervalT :=
  if a.is_empty && b.is_empty then a
  else if a.is_empty then ⟨false, b.lb, b.ub⟩
  else if b.is_empty then a
  else
    let lb := min a.lb b.lb
    let ub := max a.ub b.ub
    ⟨decide (ub < lb), lb, ub⟩

/- meet: intersection; any empty operand forces emptiness, and a crossed
   result (lb > ub) is marked empty. -/
def IntervalT.meet (a b : IntervalT) : IntervalT :=
  if a.is_empty || b.is_empty then { a with is_empty := true }
  else
    let lb := max a.lb b.lb
    let ub := min a.ub b.ub
    ⟨decide (ub < lb), lb, ub⟩

/- operator==(const IntervalT<T> and other) const: two empty intervals are
   equal; an empty and a non-empty one are not; otherwise the bounds decide. -/
def IntervalT.beqI (a b : IntervalT) : Bool :=
  if a.is_empty && b.is_empty then true
  else if a.is_empty || b.is_empty then false
  else decide (a.lb = b.lb) && decide (a.ub = b.ub)

/- operator+: warns when the pairwise guard fires, then returns the sums of
   the bounds computed in the host type (wrapping, never saturating). -/
def IntervalT.add (a b : IntervalT) : IntervalT :=
  ⟨false, wrap (a.lb + b.lb), wrap (a.ub + b.ub)⟩

def IntervalT.addWarns (a b : IntervalT) : Bool :=
  decide (wrap (maxT - b.ub) < a.lb) || decide (wrap (maxT - b.lb) < a.ub)

/- operator-: same shape as addition. -/
def IntervalT.sub (a b : IntervalT) : IntervalT :=
  ⟨false, wrap (a.lb - b.ub), wrap (a.ub - b.lb)⟩

def IntervalT.subWarns (a b : IntervalT) : Bool :=
  decide (a.lb < wrap (minT + b.ub)) || decide (a.ub < wrap (minT + b.lb))

/- unary operator-. -/
def IntervalT.negI (a : IntervalT) : IntervalT := ⟨false, wrap (-a.ub), wrap (-a.lb)⟩

def IntervalT.negWarns (a : IntervalT) : Bool := decide (a.lb = minT)

/- operator*: the overflow guard first computes max_T / other.ub() and, if
   the first comparison fails, max_T / other.lb() (|| short-circuits), so it
   crashes the program (integer division by zero) when the evaluated
   operand bound is 0 - modelled as none.  Otherwise the four corner
   products are computed in the host type and min/maxed. -/
def IntervalT.mul (a b : IntervalT) : Option IntervalT :=
  if b.ub = 0 then none
  else if a.lb ≤ Int.tdiv maxT b.ub ∧ b.lb = 0 then none
  else
    let p1 := wrap (a.lb * b.lb)
    let p2 := wrap (a.lb * b.ub)
    let p3 := wrap (a.ub * b.lb)
    let p4 := wrap (a.ub * b.ub)
    some ⟨false, min (min (min p1 p2) p3) p4, max (max (max p1 p2) p3) p4⟩

/- The warning verdict of the multiplication guard, when it does not crash
   (divisions are Int.tdiv, C++ truncation toward zero). -/
def IntervalT.mulWarns (a b : IntervalT) : Option Bool :=
  if b.ub = 0 then none
  else if Int.tdiv maxT b.ub < a.lb then some true
  else if b.lb = 0 then none
  else some (decide (Int.tdiv maxT b.lb < a.ub))

/- operator/: a divisor interval whose bounds straddle 0 yields top;
   otherwise the four corner quotients (truncated division) are min/maxed.
   A corner whose divisor bound is zero, or a MIN_T dividend bound divided
   by a -1 divisor bound, is an integer-division trap in C++ (the program
   crashes) - modelled as none. -/
def IntervalT.div (a b : IntervalT) : Option IntervalT :=
  if b.lb ≤ 0 && 0 ≤ b.ub then some ⟨false, minT, maxT⟩
  else if b.lb = 0 ∨ b.ub = 0 ∨
      ((a.lb = minT ∨ a.ub = minT) ∧ (b.lb = -1 ∨ b.ub = -1)) then none
  else
    let q1 := wrap (Int.tdiv a.lb b.lb)
    let q2 := wrap (Int.tdiv a.lb b.ub)
    let q3 := wrap (Int.tdiv a.ub b.lb)
    let q4 := wrap (Int.tdiv a.ub b.ub)
    some ⟨false, min (min (min q1 q2) q3) q4, max (max (max q1 q2) q3) q4⟩

/- contains(const T and value). -/
def IntervalT.containsVal (a : IntervalT) (v : Int) : Bool :=
  decide (a.lb ≤ v) && decide (v ≤ a.ub)

/-
  IntervalStore<T>: a std::map from variable name to IntervalT, modelled as a
  key-sorted association list.  The copy constructor and set both store the
  incoming interval with the map's copy assignment, which copies every field
  of IntervalT, the emptiness flag included.
-/
abbrev VarName := String

/- The key order of std::map over std::string: lexicographic comparison of
   the character sequences. -/
def strLtList : List Char → List Char → Bool
  | [], [] => false
  | [], _ :: _ => true
  | _ :: _, [] => false
  | a :: as, b :: bs =>
    if a.toNat < b.toNat then true
    else if b.toNat < a.toNat then false
    else strLtList as bs

def strLt (a b : String) : Bool := strLtList a.data b.data

abbrev IntervalStore := List (VarName × IntervalT)

/- set(var, interval): std::map insert-or-assign at the key's sorted slot. -/
def IntervalStore.set (s : IntervalStore) (v : VarName) (i : IntervalT) : IntervalStore :=
  match s with
  | [] => [(v, i)]
  | (k, j) :: rest =>
    if v = k then (k, i) :: rest
    else if strLt v k then (v, i) :: (k, j) :: rest
    else (k, j) :: IntervalStore.set rest v i

def IntervalStore.lookupI : IntervalStore → VarName → Option IntervalT
  | [], _ => none
  | (k, j) :: rest, v => if v = k then some j else IntervalStore.lookupI rest v

/- Reading an absent key through get() default-constructs IntervalT(), i.e.
   the non-empty interval [0, 0]. -/
def IntervalStore.getD (s : IntervalStore) (v : VarName) : IntervalT :=
  (IntervalStore.lookupI s v).getD ⟨false, 0, 0⟩

/- get() on a std::map inserts the default value when the key is absent. -/
def IntervalStore.touch (s : IntervalStore) (v : VarName) : IntervalStore :=
  match IntervalStore.lookupI s v with
  | some _ => s
  | none => IntervalStore.set s v ⟨false, 0, 0⟩

/- store.get(var).is_empty() = true: sets the emptiness flag of the entry in
   place, leaving its bounds untouched. -/
def IntervalStore.setEmptyAt (s : IntervalStore) (v : VarName) : IntervalStore :=
  let s2 := IntervalStore.touch s v
  IntervalStore.set s2 v { IntervalStore.getD s2 v with is_empty := true }

/- joinAll(other): walk other's entries in key order; join onto an existing
   entry, or insert the entry as-is when the key is missing. -/
def IntervalStore.joinAll (a b : IntervalStore) : IntervalStore :=
  b.foldl
    (fun acc kv =>
      match IntervalStore.lookupI acc kv.1 with
      | some j => IntervalStore.set acc kv.1 (IntervalT.join j kv.2)
      | none => IntervalStore.set acc kv.1 kv.2)
    a

/- equals(other): std::map operator==, i.e. the sorted entry sequences are
   pairwise equal, comparing intervals with operator== (emptiness-aware). -/
def IntervalStore.equalsB : IntervalStore → IntervalStore → Bool
  | [], [] => true
  | (k1, i1) :: r1, (k2, i2) :: r2 =>
    decide (k1 = k2) && IntervalT.beqI i1 i2 && IntervalStore.equalsB r1 r2
  | _, _ => false

/- IntervalStore(const IntervalStore<T> and other): inserts every entry of
   the source map, in its key order, into an initially empty map, assigning
   the interval with the implicitly generated copy assignment. -/
def IntervalStore.deepCopy (s : IntervalStore) : IntervalStore :=
  s.foldl (fun acc kv => IntervalStore.set acc kv.1 kv.2) []

/- Strict ascending key order: the representation invariant every store
   reachable from std::map operations satisfies. -/
def IntervalStore.sortedKeys : IntervalStore → Bool
  | [] => true
  | [_] => true
  | (k1, _) :: (k2, i2) :: r =>
    strLt k1 k2 && IntervalStore.sortedKeys ((k2, i2) :: r)

/-
  LogicOp and the complementary-operation map of the equational interpreter.
-/
inductive LogicOp
  | leq | geq | eq | neq | le | ge
deriving Repr, DecidableEq

def extractComplementaryOp : LogicOp → LogicOp
  | .leq => .ge
  | .geq => .le
  | .eq => .neq
  | .neq => .eq
  | .le => .geq
  | .ge => .leq

/- evaluate_logic_operation: the postcondition verdicts, reading only the
   bounds of the two evaluated intervals. -/
def evaluateLogicOperation (left right : IntervalT) (op : LogicOp) : Bool :=
  match op with
  | .leq => decide (left.ub ≤ right.ub) && decide (left.lb ≤ right.lb)
  | .geq => decide (right.lb ≤ left.lb) && decide (right.ub ≤ left.ub)
  | .eq => decide (left.lb = right.lb) && decide (left.ub = right.ub)
  | .neq => !(decide (left.lb = right.lb) && decide (left.ub = right.ub))
  | .le => decide (left.lb < right.lb) && decide (left.ub < right.ub)
  | .ge => decide (right.ub < left.ub) && decide (right.lb < left.lb)

/-
  Expression ASTs (the INTEGER / VARIABLE / ARITHM_OP shapes the evaluator
  accepts) and evaluate_expression.
-/
inductive BinOp
  | addB | subB | mulB | divB
deriving Repr, DecidableEq

inductive Expr
  | intE (n : Int)
  | varE (v : VarName)
  | arith (op : BinOp) (l r : Expr)
deriving Repr, DecidableEq

/- evaluate_expression: an integer literal becomes [n, n]; a variable read
   returns store.get(v) BY VALUE, i.e. through the IntervalT copy
   constructor, which drops the emptiness flag; an arithmetic node evaluates
   both children and applies the interval operation.  A multiplication or
   division trap (none) aborts the evaluation, as the crash aborts the
   program. -/
def evaluateExpression : Expr → IntervalStore → Option IntervalT
  | .intE n, _ => some ⟨false, n, n⟩
  | .varE v, s => some (IntervalT.copy (IntervalStore.getD s v))
  | .arith op l r, s => do
    let left ← evaluateExpression l s
    let right ← evaluateExpression r s
    match op with
    | .addB => some (IntervalT.add left right)
    | .subB => some (IntervalT.sub left right)
    | .mulB => IntervalT.mul left right
    | .divB => IntervalT.div left right

/- The division-by-zero warning of evaluate_expression's DIV case fires
   exactly when right.contains(null_T) holds. -/
def divisionWarning (right : IntervalT) : Bool := IntervalT.containsVal right 0

/-
  apply_command_to_store.  The store argument is received by value; reading
  the variable through get() inserts a default interval when it is absent,
  and every branch either overwrites the variable with a freshly constructed
  interval met against the half-line of the operation, or (for NEQ) trims or
  empties it in place.  The final unreachable exit(1) of the NEQ chain is
  modelled as the none result.  The plus/minus one adjustments for the
  strict comparisons are host-type arithmetic, hence wrapped.
-/
def applyCommandToStore (store : IntervalStore) (var : VarName) (itv : IntervalT)
    (op : LogicOp) : Option IntervalStore :=
  let store2 := IntervalStore.touch store var
  let cur := IntervalStore.getD store2 var
  let lb := cur.lb
  let ub := cur.ub
  match op with
  | .leq =>
    some (IntervalStore.set store2 var
      (IntervalT.meet (IntervalT.make lb ub) (IntervalT.make minT itv.ub)))
  | .le =>
    some (IntervalStore.set store2 var
      (IntervalT.meet (IntervalT.make lb ub) (IntervalT.make minT (wrap (itv.ub - 1)))))
  | .geq =>
    some (IntervalStore.set store2 var
      (IntervalT.meet (IntervalT.make lb ub) (IntervalT.make itv.lb maxT)))
  | .ge =>
    some (IntervalStore.set store2 var
      (IntervalT.meet (IntervalT.make lb ub) (IntervalT.make (wrap (itv.lb + 1)) maxT)))
  | .eq =>
    some (IntervalStore.set store2 var (IntervalT.meet (IntervalT.make lb ub) itv))
  | .neq =>
    if itv.lb ≤ lb then
      if wrap (lb + 1) ≤ ub then
        some (IntervalStore.set store2 var (IntervalT.make (wrap (lb + 1)) ub))
      else some (IntervalStore.setEmptyAt store2 var)
    else if ub ≤ itv.ub then
      if lb ≤ wrap (ub - 1) then
        some (IntervalStore.set store2 var (IntervalT.make lb (wrap (ub - 1))))
      else some (IntervalStore.setEmptyAt store2 var)
    else if itv.ub < ub && lb < itv.lb then some store2
    else if itv.ub = ub && itv.lb = lb then some (IntervalStore.setEmptyAt store2 var)
    else none

/-
  Locations.  Each C++ Location subclass is one constructor; the Option on a
  store field models the shared_ptr, none being nullptr.  The closure stored
  in m_operation is fully determined by the constructor tag plus the AST
  slice captured at build time, so it is implemented by execLoc below.
-/
inductive LocData
  | assignL (before after : Option IntervalStore) (v : VarName) (rhs : Expr)
  | postL (st : Option IntervalStore) (lhs : Expr) (op : LogicOp) (rhs : Expr)
  | ifElseL (before ifBody elseBody : Option IntervalStore)
      (var : VarName) (op : LogicOp) (rhs : Expr) (hasElse : Bool)
  | endIfL (before afterBody afterElse after : Option IntervalStore)
  | whileL (before body exitS : Option IntervalStore)
      (var : VarName) (op : LogicOp) (rhs : Expr)
  | endWhileL (fromWhile after : Option IntervalStore)
deriving Repr, DecidableEq

structure Loc where
  data : LocData
  endsIfBody : Bool := false
  endsElseBody : Bool := false
  endsWhileBody : Bool := false
deriving Repr, DecidableEq

inductive LocType
  | assignmentT | postconditionT | ifElseT | endIfT | whileT | endWhileT
deriving Repr, DecidableEq

def identifyType (loc : Loc) : LocType :=
  match loc.data with
  | .assignL .. => .assignmentT
  | .postL .. => .postconditionT
  | .ifElseL .. => .ifElseT
  | .endIfL .. => .endIfT
  | .whileL .. => .whileT
  | .endWhileL .. => .endWhileT

/- get_last_store: only Assignment, Postcondition and EndIf override the
   base implementation; IfElse, While and, crucially, EndWhile fall back to
   the base class, which returns nullptr. -/
def getLastStore (loc : Loc) : Option IntervalStore :=
  match loc.data with
  | .assignL _ after _ _ => after
  | .postL st _ _ _ => st
  | .ifElseL .. => none
  | .endIfL _ _ _ after => after
  | .whileL .. => none
  | .endWhileL .. => none

/- set_previous_store: EndWhile does not override it, so the call is a
   no-op there; every other variant stores the pointer into its input slot. -/
def setPreviousStore (loc : Loc) (s : Option IntervalStore) : Loc :=
  match loc.data with
  | .assignL _ after v rhs => { loc with data := .assignL s after v rhs }
  | .postL _ lhs op rhs => { loc with data := .postL s lhs op rhs }
  | .ifElseL _ i e var op rhs he => { loc with data := .ifElseL s i e var op rhs he }
  | .endIfL _ ab ae a => { loc with data := .endIfL s ab ae a }
  | .whileL _ b ex var op rhs => { loc with data := .whileL s b ex var op rhs }
  | .endWhileL .. => loc

/- set_final_if_body_store / set_final_else_body_store: EndIf only. -/
def setFinalIfBodyStore (loc : Loc) (s : Option IntervalStore) : Loc :=
  match loc.data with
  | .endIfL b _ ae a => { loc with data := .endIfL b s ae a }
  | _ => loc

def setFinalElseBodyStore (loc : Loc) (s : Option IntervalStore) : Loc :=
  match loc.data with
  | .endIfL b ab _ a => { loc with data := .endIfL b ab s a }
  | _ => loc

/- set_final_while_body_store: EndWhile only. -/
def setFinalWhileBodyStore (loc : Loc) (s : Option IntervalStore) : Loc :=
  match loc.data with
  | .endWhileL _ after => { loc with data := .endWhileL s after }
  | _ => loc

/- The seven FIFO queues wiring heads to bodies and tails to ends.  They
   hold the (possibly null) pointers the C++ code pushes; all pushed stores
   are snapshots that are never mutated afterwards, so values suffice. -/
structure Queues where
  ifBodyQ : List (Option IntervalStore) := []
  elseBodyQ : List (Option IntervalStore) := []
  finalIfQ : List (Option IntervalStore) := []
  finalElseQ : List (Option IntervalStore) := []
  whileBodyQ : List (Option IntervalStore) := []
  whileExitQ : List (Option IntervalStore) := []
  finalWhileQ : List (Option IntervalStore) := []
deriving Repr, DecidableEq

structure SysState where
  locs : List Loc
  q : Queues
deriving Repr, DecidableEq

/- Failure modes of a solver pass: dereferencing a null store pointer,
   popping an empty queue (both undefined behaviour in the C++), the dead
   arm of the NEQ refinement, and fuel exhaustion (a model artifact: the
   C++ do-while has no iteration bound). -/
inductive SolveError
  | nullStore | emptyQueue | commandFailure | arithTrap | fuelExhausted
deriving Repr, DecidableEq

def getStore : Option IntervalStore → Except SolveError IntervalStore
  | some s => .ok s
  | none => .error .nullStore

def liftCmd : Option IntervalStore → Except SolveError IntervalStore
  | some s => .ok s
  | none => .error .commandFailure

/- An expression evaluation that traps (multiplication-guard or division
   crash) aborts the analysis. -/
def liftEval : Option IntervalT → Except SolveError IntervalT
  | some i => .ok i
  | none => .error .arithTrap

def popQ : List (Option IntervalStore) → Except SolveError (Option IntervalStore × List (Option IntervalStore))
  | [] => .error .emptyQueue
  | x :: xs => .ok (x, xs)

/- The transfer function of one Location (the body of its m_operation
   closure), together with the queue pushes it performs. -/
def execLoc (q : Queues) (loc : Loc) : Except SolveError (Loc × Queues) :=
  match loc.data with
  | .assignL before _ v rhs => do
    let s ← getStore before
    let i ← liftEval (evaluateExpression rhs s)
    .ok ({ loc with data := .assignL before (some (IntervalStore.set s v i)) v rhs }, q)
  | .postL st lhs op rhs => do
    -- the postcondition operation always dereferences its store and
    -- evaluates both sides; the verdict is only reported in the
    -- verification phase (evaluatePostconditions below)
    let s ← getStore st
    let _ ← liftEval (evaluateExpression lhs s)
    let _ ← liftEval (evaluateExpression rhs s)
    .ok (⟨.postL st lhs op rhs, loc.endsIfBody, loc.endsElseBody, loc.endsWhileBody⟩, q)
  | .ifElseL before _ _ var op rhs hasElse => do
    let store ← getStore before
    let rhsItv ← liftEval (evaluateExpression rhs store)
    let ifStore ← liftCmd (applyCommandToStore store var rhsItv op)
    let q := { q with ifBodyQ := q.ifBodyQ ++ [some ifStore] }
    let compOp := extractComplementaryOp op
    let rhsItv2 ← liftEval (evaluateExpression rhs store)
    let elseStore ← liftCmd (applyCommandToStore store var rhsItv2 compOp)
    let q := { q with elseBodyQ := q.elseBodyQ ++ [some elseStore] }
    let q := if hasElse then q else { q with finalElseQ := q.finalElseQ ++ [some elseStore] }
    .ok ({ loc with data := .ifElseL before (some ifStore) (some elseStore) var op rhs hasElse }, q)
  | .endIfL before afterBody afterElse _ => do
    let ib ← getStore afterBody
    let eb ← getStore afterElse
    let joined := some (IntervalStore.joinAll ib eb)
    .ok ({ loc with data := .endIfL before afterBody afterElse joined }, q)
  | .whileL before _ _ var op rhs => do
    let store ← getStore before
    let rhsItv ← liftEval (evaluateExpression rhs store)
    let (whileBodyStore, q) ←
      match q.finalWhileQ with
      | [] => .ok (store, q)   -- no feedback store yet
      | fOpt :: rest => do
        let f ← getStore fOpt
        .ok (IntervalStore.joinAll store f, { q with finalWhileQ := rest })
    let body ← liftCmd (applyCommandToStore whileBodyStore var rhsItv op)
    let q := { q with whileBodyQ := q.whileBodyQ ++ [some body] }
    let compOp := extractComplementaryOp op
    let exitStore ← liftCmd (applyCommandToStore whileBodyStore var rhsItv compOp)
    let q := { q with whileExitQ := q.whileExitQ ++ [some exitStore] }
    .ok ({ loc with data := .whileL before (some body) (some exitStore) var op rhs }, q)
  | .endWhileL fromWhile _ => do
    let f ← getStore fromWhile
    .ok ({ loc with data := .endWhileL fromWhile (some f) }, q)

/- The routing solve_system performs before executing each Location: the
   branch order is exactly the C++ if/else-if chain. -/
def routeLoc (loc : Loc) (curT lastT : LocType) (lastEndsIf : Bool) (counter : Nat)
    (lastStore : Option IntervalStore) (q : Queues) : Except SolveError (Loc × Queues) :=
  if lastT = .ifElseT then do
    let (s, rest) ← popQ q.ifBodyQ
    .ok (setPreviousStore loc s, { q with ifBodyQ := rest })
  else if curT = .endIfT then do
    let (s1, rest1) ← popQ q.finalIfQ
    let q := { q with finalIfQ := rest1 }
    let (s2, rest2) ← popQ q.finalElseQ
    let q := { q with finalElseQ := rest2 }
    .ok (setFinalElseBodyStore (setFinalIfBodyStore loc s1) s2, q)
  else if counter ≠ 0 && lastEndsIf then do
    let (s, rest) ← popQ q.elseBodyQ
    .ok (setPreviousStore loc s, { q with elseBodyQ := rest })
  else if counter ≠ 0 && curT = .endWhileT then do
    let (s, rest) ← popQ q.whileExitQ
    .ok (setFinalWhileBodyStore loc s, { q with whileExitQ := rest })
  else if counter ≠ 0 && lastT = .whileT then do
    let (s, rest) ← popQ q.whileBodyQ
    .ok (setPreviousStore loc s, { q with whileBodyQ := rest })
  else
    .ok (setPreviousStore loc lastStore, q)

/- After executing a Location, the ends_* flags push its last store (even a
   null one) onto the matching final queues. -/
def pushFlagQueues (q : Queues) (loc : Loc) (ls : Option IntervalStore) : Queues :=
  let q := if loc.endsIfBody then { q with finalIfQ := q.finalIfQ ++ [ls] } else q
  let q := if loc.endsElseBody then { q with finalElseQ := q.finalElseQ ++ [ls] } else q
  if loc.endsWhileBody then { q with finalWhileQ := q.finalWhileQ ++ [ls] } else q

/- One walk of solve_system over the Location list. -/
def solveGo (q : Queues) (lastStore : Option IntervalStore) (lastT : LocType)
    (lastEndsIf : Bool) (counter : Nat) :
    List Loc → Except SolveError (List Loc × Queues)
  | [] => .ok ([], q)
  | loc :: rest => do
    let curT := identifyType loc
    let (loc1, q1) ← routeLoc loc curT lastT lastEndsIf counter lastStore q
    let (loc2, q2) ← execLoc q1 loc1
    let ls := getLastStore loc2
    let q3 := pushFlagQueues q2 loc2 ls
    let (rest2, q4) ← solveGo q3 ls curT loc2.endsIfBody (counter + 1) rest
    .ok (loc2 :: rest2, q4)

/- solve_system: each pass restarts from a fresh copy of the precondition
   store. -/
def solveSystem (pre : IntervalStore) (st : SysState) : Except SolveError SysState := do
  let (locs, q) ← solveGo st.q (some pre) .assignmentT false 0 st.locs
  .ok ⟨locs, q⟩

/- Per-variant stability predicates.  The C++ compares through its old
   snapshot with equals(); both sides are non-null whenever the comparison
   is actually reached in the runs verified here. -/
def optEquals : Option IntervalStore → Option IntervalStore → Bool
  | some a, some b => IntervalStore.equalsB a b
  | _, _ => false

def isStableLoc (newLoc oldLoc : Loc) : Bool :=
  match newLoc.data, oldLoc.data with
  | .assignL _ a1 _ _, .assignL _ a2 _ _ => optEquals a1 a2
  | .postL .., .postL .. => true
  | .ifElseL _ i1 e1 _ _ _ _, .ifElseL _ i2 e2 _ _ _ _ =>
    optEquals i1 i2 && optEquals e1 e2
  | .endIfL _ b1 e1 _, .endIfL _ b2 e2 _ => optEquals b1 b2 && optEquals e1 e2
  | .whileL _ b1 x1 _ _ _, .whileL _ b2 x2 _ _ _ => optEquals b1 b2 && optEquals x1 x2
  | .endWhileL _ a1, .endWhileL _ a2 => optEquals a1 a2
  | _, _ => false

def isStableAll : List Loc → List Loc → Bool
  | [], [] => true
  | n :: ns, o :: os => isStableLoc n o && isStableAll ns os
  | _, _ => false

/- The do-while of run(): snapshot, solve, compare; repeat until stable.
   The fuel argument only makes the recursion structural. -/
def runFix (pre : IntervalStore) : Nat → SysState → Except SolveError SysState
  | 0, _ => .error .fuelExhausted
  | n + 1, st => do
    let olds := st.locs
    let st2 ← solveSystem pre st
    if isStableAll st2.locs olds then .ok st2 else runFix pre n st2

/- The verification phase: every Postcondition Location re-runs with
   should_evaluate_postcondition set, reporting its verdict. -/
def evalPosts : List Loc → Except SolveError (List Bool)
  | [] => .ok []
  | loc :: rest => do
    let vs ←
      match loc.data with
      | .postL st lhs op rhs => do
        let s ← getStore st
        let left ← liftEval (evaluateExpression lhs s)
        let right ← liftEval (evaluateExpression rhs s)
        .ok [evaluateLogicOperation left right op]
      | _ => .ok []
    let vrest ← evalPosts rest
    .ok (vs ++ vrest)

/- run(): fixpoint iteration followed by postcondition evaluation. -/
def analyze (pre : IntervalStore) (st : SysState) (fuel : Nat) :
    Except SolveError (SysState × List Bool) := do
  let st2 ← runFix pre fuel st
  let vs ← evalPosts st2.locs
  .ok (st2, vs)

/-
  The Location list the equation builder emits for
    int i; i = 0; while (i < 10) { i = i + 1 }; postcondition i == 10
  following manage_block: Assignment, WhileHead, the body Assignment
  (flagged ends_while_body), EndWhile, Postcondition.  Build-time store
  pointers: fresh empty stores where the builder calls make_shared, null
  where it assigns nullptr (EndWhile's two stores, EndIf's before/after).
-/
def preStoreLoop : IntervalStore := [("i", ⟨false, minT, maxT⟩)]

def loopProgramLocs : List Loc :=
  [ { data := .assignL (some []) (some []) "i" (.intE 0) },
    { data := .whileL (some []) (some []) (some []) "i" .le (.intE 10) },
    { data := .assignL (some []) (some []) "i" (.arith .addB (.varE "i") (.intE 1)),
      endsWhileBody := true },
    { data := .endWhileL none none },
    { data := .postL (some []) (.varE "i") .eq (.intE 10) } ]

def loopSys : SysState := ⟨loopProgramLocs, {}⟩

/- Spec section 3 meet: any empty operand gives empty; otherwise take
   [max lb, min ub], which becomes empty if it crosses. -/
def IntervalT.meetSpec (a b : IntervalT) : IntervalT :=
  if a.is_empty || b.is_empty then ⟨true, a.lb, a.ub⟩
  else ⟨decide (min a.ub b.ub < max a.lb b.lb), max a.lb b.lb, min a.ub b.ub⟩

/- Spec section 4.3: the refined interval for variable var under comparison
   op with right-hand interval R, meeting with the induced half-line; NEQ
   removes R with the low-side / high-side / strictly-inside / exact-match
   case split. -/
def refineSpecItv (cur R : IntervalT) (op : LogicOp) : IntervalT :=
  match op with
  | .leq => IntervalT.meetSpec cur ⟨false, minT, R.ub⟩
  | .le => IntervalT.meetSpec cur ⟨false, minT, R.ub - 1⟩
  | .geq => IntervalT.meetSpec cur ⟨false, R.lb, maxT⟩
  | .ge => IntervalT.meetSpec cur ⟨false, R.lb + 1, maxT⟩
  | .eq => IntervalT.meetSpec cur R
  | .neq =>
    if R.lb ≤ cur.lb then
      (if cur.lb + 1 ≤ cur.ub then ⟨false, cur.lb + 1, cur.ub⟩ else ⟨true, cur.lb, cur.ub⟩)
    else if cur.ub ≤ R.ub then
      (if cur.lb ≤ cur.ub - 1 then ⟨false, cur.lb, cur.ub - 1⟩ else ⟨true, cur.lb, cur.ub⟩)
    else if R.ub < cur.ub && cur.lb < R.lb then cur
    else if R.ub = cur.ub && R.lb = cur.lb then ⟨true, cur.lb, cur.ub⟩
    else cur

/- The whole-store form of the claim: replace sigma[var] by its refinement. -/
def refineSpecStore (s : IntervalStore) (var : VarName) (R : IntervalT)
    (op : LogicOp) : IntervalStore :=
  IntervalStore.set s var (refineSpecItv (IntervalStore.getD s var) R op)

/- Spec section 4.1: the four-corner min/max rule for division, with the
   exact truncated quotients. -/
def fourCornerDivRule (a b : IntervalT) : IntervalT :=
  let q1 := Int.tdiv a.lb b.lb
  let q2 := Int.tdiv a.lb b.ub
  let q3 := Int.tdiv a.ub b.lb
  let q4 := Int.tdiv a.ub b.ub
  ⟨false, min (min (min q1 q2) q3) q4, max (max (max q1 q2) q3) q4⟩

theorem wrap_eq_self (x : Int) (h1 : minT ≤ x) (h2 : x ≤ maxT) : wrap x = x := by
  unfold wrap minT maxT at *
  omega

theorem wrap_eq_sub (x : Int) (h1 : minT + twoPow64 ≤ x) (h2 : x ≤ maxT + twoPow64) :
    wrap x = x - twoPow64 := by
  unfold wrap minT maxT twoPow64 at *
  omega

theorem wrap_eq_add (x : Int) (h1 : minT - twoPow64 ≤ x) (h2 : x < minT) :
    wrap x = x + twoPow64 := by
  unfold wrap minT twoPow64 at *
  omega

theorem natAbs_tdiv_le (a b : Int) : (Int.tdiv a b).natAbs ≤ a.natAbs := by
  unfold Int.tdiv
  cases a <;> cases b <;>
    simp [Int.natAbs_neg] <;>
    exact Nat.div_le_self _ _

theorem tdiv_range (a b : Int) (h1 : -maxT ≤ a) (h2 : a ≤ maxT) :
    minT ≤ Int.tdiv a b ∧ Int.tdiv a b ≤ maxT := by
  have h := natAbs_tdiv_le a b
  unfold minT maxT at *
  omega

theorem wrap_isWrapOf (x : Int) : isWrapOf (wrap x) x := by
  unfold isWrapOf wrap minT maxT twoPow64
  omega

theorem natAbs_tdiv_eq (a b : Int) : (Int.tdiv a b).natAbs = a.natAbs / b.natAbs := by
  unfold Int.tdiv
  cases a <;> cases b <;>
    simp only [Int.natAbs_neg, Int.natAbs_negSucc, Nat.succ_eq_add_one] <;>
    rfl

theorem tdiv_range2 (x y : Int) (h1 : minT ≤ x) (h2 : x ≤ maxT) (hy : y ≠ 0)
    (hxy : ¬(x = minT ∧ y = -1)) :
    minT ≤ Int.tdiv x y ∧ Int.tdiv x y ≤ maxT := by
  by_cases hx : x = minT
  · subst hx
    by_cases hy1 : y = 1
    · subst hy1
      rw [Int.tdiv_one]
      exact ⟨le_refl _, by unfold minT maxT; omega⟩
    · have hym : y ≠ -1 := fun h => hxy ⟨rfl, h⟩
      have hy2 : 2 ≤ y.natAbs := by omega
      have hle : minT.natAbs / y.natAbs ≤ minT.natAbs / 2 :=
        Nat.div_le_div_left hy2 (by omega)
      have hkey : (Int.tdiv minT y).natAbs ≤ minT.natAbs / 2 := by
        rw [natAbs_tdiv_eq]; exact hle
      have mc : minT.natAbs / 2 = 4611686018427387904 := by decide
      rw [mc] at hkey
      unfold minT maxT at *
      omega
  · have heq := natAbs_tdiv_eq x y
    have hle := Nat.div_le_self x.natAbs y.natAbs
    rw [← heq] at hle
    unfold minT maxT at *
    omega

theorem strLtList_irrefl : ∀ l : List Char, strLtList l l = false := by
  intro l
  induction l with
  | nil => rfl
  | cons a as ih => simp [strLtList, ih]

theorem strLtList_trans : ∀ l1 l2 l3 : List Char,
    strLtList l1 l2 = true → strLtList l2 l3 = true → strLtList l1 l3 = true := by
  intro l1
  induction l1 with
  | nil =>
    intro l2 l3 h12 h23
    cases l2 with
    | nil => simp [strLtList] at h12
    | cons b bs =>
      cases l3 with
      | nil => simp [strLtList] at h23
      | cons c cs => simp [strLtList]
  | cons a as ih =>
    intro l2 l3 h12 h23
    cases l2 with
    | nil => simp [strLtList] at h12
    | cons b bs =>
      cases l3 with
      | nil => simp [strLtList] at h23
      | cons c cs =>
        simp only [strLtList] at h12 h23 ⊢
        by_cases hab : a.toNat < b.toNat
        · by_cases hbc : b.toNat < c.toNat
          · simp [show a.toNat < c.toNat by omega]
          · by_cases hcb : c.toNat < b.toNat
            · simp [hbc, hcb] at h23
            · simp [show a.toNat < c.toNat by omega]
        · by_cases hba : b.toNat < a.toNat
          · simp [hab, hba] at h12
          · by_cases hbc : b.toNat < c.toNat
            · simp [show a.toNat < c.toNat by omega]
            · by_cases hcb : c.toNat < b.toNat
              · simp [hbc, hcb] at h23
              · have has : strLtList as bs = true := by simpa [hab, hba] using h12
                have hbs : strLtList bs cs = true := by simpa [hbc, hcb] using h23
                simp [show ¬a.toNat < c.toNat by omega, show ¬c.toNat < a.toNat by omega,
                  ih bs cs has hbs]

theorem strLtList_asymm : ∀ l1 l2 : List Char,
    strLtList l1 l2 = true → strLtList l2 l1 = false := by
  intro l1
  induction l1 with
  | nil =>
    intro l2 h12
    cases l2 with
    | nil => simp [strLtList] at h12
    | cons b bs => rfl
  | cons a as ih =>
    intro l2 h12
    cases l2 with
    | nil => simp [strLtList] at h12
    | cons b bs =>
      simp only [strLtList] at h12 ⊢
      by_cases hab : a.toNat < b.toNat
      · simp [show ¬b.toNat < a.toNat by omega, show ¬a.toNat < b.toNat → False by omega]
        intro h
        omega
      · by_cases hba : b.toNat < a.toNat
        · simp [hab, hba] at h12
        · have has : strLtList as bs = true := by simpa [hab, hba] using h12
          simp [hab, hba, ih bs has]

theorem strLt_trans (a b c : VarName) (h1 : strLt a b = true) (h2 : strLt b c = true) :
    strLt a c = true :=
  strLtList_trans a.data b.data c.data h1 h2

theorem strLt_asymm (a b : VarName) (h : strLt a b = true) : strLt b a = false :=
  strLtList_asymm a.data b.data h

theorem strLt_ne (a b : VarName) (h : strLt a b = true) : b ≠ a := by
  intro he
  subst he
  unfold strLt at h
  rw [strLtList_irrefl] at h
  exact Bool.false_ne_true h

theorem sortedKeys_cons (k : VarName) (i : IntervalT) (r : IntervalStore)
    (h : IntervalStore.sortedKeys ((k, i) :: r) = true) :
    IntervalStore.sortedKeys r = true := by
  cases r with
  | nil => rfl
  | cons hd tl =>
    cases hd
    unfold IntervalStore.sortedKeys at h
    exact (Bool.and_eq_true_iff.mp h).2

theorem sortedKeys_head_lt (k : VarName) (i : IntervalT) (k2 : VarName) (i2 : IntervalT)
    (r : IntervalStore)
    (h : IntervalStore.sortedKeys ((k, i) :: (k2, i2) :: r) = true) :
    strLt k k2 = true := by
  unfold IntervalStore.sortedKeys at h
  exact (Bool.and_eq_true_iff.mp h).1

theorem lookup_key_gt (k : VarName) (j : IntervalT) (rest : IntervalStore)
    (v : VarName) (iv : IntervalT)
    (hs : IntervalStore.sortedKeys ((k, j) :: rest) = true)
    (hl : IntervalStore.lookupI rest v = some iv) : strLt k v = true := by
  induction rest generalizing k j with
  | nil => simp [IntervalStore.lookupI] at hl
  | cons hd tl ih =>
    obtain ⟨k2, j2⟩ := hd
    have hkk2 : strLt k k2 = true := sortedKeys_head_lt k j k2 j2 tl hs
    have hs2 : IntervalStore.sortedKeys ((k2, j2) :: tl) = true :=
      sortedKeys_cons k j _ hs
    unfold IntervalStore.lookupI at hl
    by_cases hv : v = k2
    · subst hv; exact hkk2
    · rw [if_neg hv] at hl
      exact strLt_trans k k2 v hkk2 (ih k2 j2 hs2 hl)

theorem touch_of_lookup (s : IntervalStore) (v : VarName) (iv : IntervalT)
    (hl : IntervalStore.lookupI s v = some iv) :
    IntervalStore.touch s v = s := by
  unfold IntervalStore.touch
  rw [hl]

theorem set_lookup_self (s : IntervalStore) (v : VarName) (iv : IntervalT)
    (hs : IntervalStore.sortedKeys s = true)
    (hl : IntervalStore.lookupI s v = some iv) :
    IntervalStore.set s v iv = s := by
  induction s with
  | nil => simp [IntervalStore.lookupI] at hl
  | cons hd rest ih =>
    obtain ⟨k, j⟩ := hd
    unfold IntervalStore.lookupI at hl
    unfold IntervalStore.set
    by_cases hv : v = k
    · subst hv
      rw [if_pos rfl] at hl ⊢
      cases hl
      rfl
    · rw [if_neg hv] at hl ⊢
      have hkv : strLt k v = true := lookup_key_gt k j rest v iv hs hl
      rw [if_neg (by rw [strLt_asymm k v hkv]; exact Bool.false_ne_true)]
      rw [ih (sortedKeys_cons k j rest hs) hl]

theorem set_append_gt (acc : IntervalStore) (k : VarName) (i : IntervalT)
    (h : ∀ e ∈ acc, strLt e.1 k = true) :
    IntervalStore.set acc k i = acc ++ [(k, i)] := by
  induction acc with
  | nil => rfl
  | cons hd rest ih =>
    obtain ⟨k0, j0⟩ := hd
    have hk0 : strLt k0 k = true := h (k0, j0) (List.mem_cons_self _ _)
    unfold IntervalStore.set
    rw [if_neg (fun he => absurd rfl (he ▸ strLt_ne k0 k hk0))]
    rw [if_neg (by rw [strLt_asymm k0 k hk0]; exact Bool.false_ne_true)]
    rw [ih (fun e he => h e (List.mem_cons_of_mem _ he))]
    rfl

theorem sortedKeys_append_mem_lt (acc : IntervalStore) (k : VarName) (i : IntervalT)
    (r : IntervalStore)
    (hs : IntervalStore.sortedKeys (acc ++ (k, i) :: r) = true) :
    ∀ e ∈ acc, strLt e.1 k = true := by
  induction acc with
  | nil => intro e he; simp at he
  | cons hd tl ih =>
    obtain ⟨k0, j0⟩ := hd
    intro e he
    rcases List.mem_cons.mp he with he0 | heTl
    · subst he0
      show strLt k0 k = true
      cases tl with
      | nil => exact sortedKeys_head_lt k0 j0 k i r hs
      | cons hd2 tl2 =>
        obtain ⟨k2, j2⟩ := hd2
        have hk02 : strLt k0 k2 = true := sortedKeys_head_lt k0 j0 k2 j2 _ hs
        have hk2k : strLt k2 k = true :=
          ih (sortedKeys_cons k0 j0 _ hs) (k2, j2) (List.mem_cons_self _ _)
        exact strLt_trans k0 k2 k hk02 hk2k
    · exact ih (sortedKeys_cons k0 j0 _ hs) e heTl

theorem foldl_set_sorted (s acc : IntervalStore)
    (hs : IntervalStore.sortedKeys (acc ++ s) = true) :
    s.foldl (fun a kv => IntervalStore.set a kv.1 kv.2) acc = acc ++ s := by
  induction s generalizing acc with
  | nil => simp
  | cons hd r ih =>
    obtain ⟨k, i⟩ := hd
    have hmem : ∀ e ∈ acc, strLt e.1 k = true := sortedKeys_append_mem_lt acc k i r hs
    show List.foldl _ (IntervalStore.set acc k i) r = _
    rw [set_append_gt acc k i hmem]
    have : IntervalStore.sortedKeys ((acc ++ [(k, i)]) ++ r) = true := by
      simpa using hs
    rw [ih (acc ++ [(k, i)]) this]
    simp

theorem deepCopy_sorted (s : IntervalStore)
    (hs : IntervalStore.sortedKeys s = true) :
    IntervalStore.deepCopy s = s := by
  unfold IntervalStore.deepCopy
  have := foldl_set_sorted s [] (by simpa using hs)
  simpa using this


/-- Claim C1 as stated is false: for the non-empty operands A = B = [0, MAX_T]
the exact upper bound of the sum exceeds MAX_T, yet operator+ emits no
warning (its pairwise guard does not fire) and the returned interval is the
wrapped [0, -2], not the saturated top interval. -/
theorem C1_counterexample :
    (IntervalT.mk false 0 maxT).is_empty = false ∧
    maxT < (IntervalT.mk false 0 maxT).ub + (IntervalT.mk false 0 maxT).ub ∧
    IntervalT.addWarns ⟨false, 0, maxT⟩ ⟨false, 0, maxT⟩ = false ∧
    IntervalT.add ⟨false, 0, maxT⟩ ⟨false, 0, maxT⟩ = ⟨false, 0, -2⟩ ∧
    IntervalT.add ⟨false, 0, maxT⟩ ⟨false, 0, maxT⟩ ≠ topInterval := by
  refine ⟨rfl, by decide, by decide, by decide, by decide⟩

/-- Claim C1, amended: for all operand intervals A and B the bounds
returned by operator+, operator- and (when its overflow guard does not
crash the program dividing by a zero operand bound) operator* are the
exact bounds of the host-type computation reduced modulo 2 to the 64 into
the signed range (two's-complement wrap), never a saturation: overflow
wraps, and the wrap can even land exactly on [MIN_T, MAX_T] (as the
multiplication [-1, 1] * [MIN_T, MAX_T] does); the warning is the verdict
of the code's pairwise guard, which fires without overflow and stays
silent under overflow. -/
theorem C1_amended : ∀ A B : IntervalT,
    ((IntervalT.add A B).is_empty = false ∧
      isWrapOf (IntervalT.add A B).lb (A.lb + B.lb) ∧
      isWrapOf (IntervalT.add A B).ub (A.ub + B.ub)) ∧
    ((IntervalT.sub A B).is_empty = false ∧
      isWrapOf (IntervalT.sub A B).lb (A.lb - B.ub) ∧
      isWrapOf (IntervalT.sub A B).ub (A.ub - B.lb)) ∧
    (∀ r, IntervalT.mul A B = some r →
      r.is_empty = false ∧
      ∃ w1 w2 w3 w4,
        isWrapOf w1 (A.lb * B.lb) ∧ isWrapOf w2 (A.lb * B.ub) ∧
        isWrapOf w3 (A.ub * B.lb) ∧ isWrapOf w4 (A.ub * B.ub) ∧
        r.lb = min (min (min w1 w2) w3) w4 ∧
        r.ub = max (max (max w1 w2) w3) w4) ∧
    IntervalT.mul ⟨false, -1, 1⟩ ⟨false, minT, maxT⟩ = some topInterval ∧
    IntervalT.mul ⟨false, 1, 1⟩ ⟨false, 0, 0⟩ = none ∧
    (IntervalT.addWarns ⟨false, 0, maxT⟩ ⟨false, 0, maxT⟩ = false ∧
      maxT < maxT + maxT) ∧
    (IntervalT.addWarns ⟨false, 0, 0⟩ ⟨false, -5, -1⟩ = true ∧
      minT ≤ 0 + (-5) ∧ (0 : Int) + (-1) ≤ maxT) := by
  intro A B
  refine ⟨⟨rfl, wrap_isWrapOf _, wrap_isWrapOf _⟩,
          ⟨rfl, wrap_isWrapOf _, wrap_isWrapOf _⟩,
          ?_, by decide, by decide, ⟨by decide, by decide⟩,
          ⟨by decide, by decide, by decide⟩⟩
  intro r hr
  unfold IntervalT.mul at hr
  split_ifs at hr
  injection hr with h
  subst h
  exact ⟨rfl, _, _, _, _, wrap_isWrapOf _, wrap_isWrapOf _,
    wrap_isWrapOf _, wrap_isWrapOf _, rfl, rfl⟩

/-- Witness for C1_amended: the wrap description extracted at the concrete
overflowing addition [MAX_T, MAX_T] + [1, 1] and at the concrete crash-free
multiplication [2, 3] * [4, 5]. -/
theorem C1_amended_witness :
    (IntervalT.add ⟨false, maxT, maxT⟩ ⟨false, 1, 1⟩).is_empty = false ∧
    isWrapOf (IntervalT.add ⟨false, maxT, maxT⟩ ⟨false, 1, 1⟩).ub (maxT + 1) ∧
    (IntervalT.mk false 8 15).is_empty = false := by
  have h := C1_amended ⟨false, maxT, maxT⟩ ⟨false, 1, 1⟩
  have h2 := C1_amended ⟨false, 2, 3⟩ ⟨false, 4, 5⟩
  exact ⟨h.1.1, h.1.2.2, (h2.2.2.1 ⟨false, 8, 15⟩ (by decide)).1⟩

/-- Claim C5 as stated is false: adding the empty interval to itself yields
an interval whose emptiness flag is false. -/
theorem C5_counterexample :
    (IntervalT.mk true 0 0).is_empty = true ∧
    (IntervalT.add ⟨true, 0, 0⟩ ⟨true, 0, 0⟩).is_empty = false := by
  exact ⟨rfl, rfl⟩

/-- Claim C5, amended: the arithmetic operators ignore the emptiness flag
entirely; whatever the operands, the result of +, - and unary negation, and
every interval that * and / return when their host-type divisions do not
crash the program, carries a false emptiness flag. -/
theorem C5_amended : ∀ a b : IntervalT,
    (IntervalT.add a b).is_empty = false ∧
    (IntervalT.sub a b).is_empty = false ∧
    (∀ r, IntervalT.mul a b = some r → r.is_empty = false) ∧
    (∀ r, IntervalT.div a b = some r → r.is_empty = false) ∧
    (IntervalT.negI a).is_empty = false := by
  intro a b
  refine ⟨rfl, rfl, ?_, ?_, rfl⟩
  · intro r hr
    unfold IntervalT.mul at hr
    split_ifs at hr
    injection hr with h
    subst h
    rfl
  · intro r hr
    unfold IntervalT.div at hr
    split_ifs at hr
    · injection hr with h
      subst h
      rfl
    · injection hr with h
      subst h
      rfl

/-- Claim C7 as stated is false: the two-argument constructor called with
lb = 5 greater than ub = 3 yields an interval whose emptiness flag is
false, so non-empty intervals with lb greater than ub are representable. -/
theorem C7_counterexample :
    (IntervalT.make 5 3).is_empty = false ∧ (3 : Int) < 5 := by
  exact ⟨rfl, by decide⟩

/-- Claim C7, amended: the two-argument constructor stores the given bounds
verbatim with the emptiness flag false, even when lb is greater than ub;
emptiness arises only from the lattice operations, which mark a crossed
result empty. -/
theorem C7_amended :
    (∀ lb ub : Int, IntervalT.make lb ub = ⟨false, lb, ub⟩) ∧
    ∀ a b : IntervalT, a.is_empty = false → b.is_empty = false →
      ((IntervalT.meet a b).is_empty = true ↔ min a.ub b.ub < max a.lb b.lb) := by
  constructor
  · intro lb ub; rfl
  · intro a b ha hb
    unfold IntervalT.meet
    simp [ha, hb]

/-- Witness for C7_amended: the meet of the disjoint non-empty intervals
[0, 1] and [2, 3] is marked empty. -/
theorem C7_amended_witness :
    (IntervalT.meet ⟨false, 0, 1⟩ ⟨false, 2, 3⟩).is_empty = true :=
  (C7_amended.2 ⟨false, 0, 1⟩ ⟨false, 2, 3⟩ rfl rfl).mpr (by decide)

/-- Claim C8 as stated is false: the checker judges the equality
postcondition satisfied for L = R = [0, 5], although neither side is a
singleton interval. -/
theorem C8_counterexample :
    evaluateLogicOperation ⟨false, 0, 5⟩ ⟨false, 0, 5⟩ .eq = true ∧
    (IntervalT.mk false 0 5).lb ≠ (IntervalT.mk false 0 5).ub := by
  exact ⟨rfl, by decide⟩

/-- Claim C8, amended: the equality postcondition is judged satisfied
exactly when the lower bounds agree and the upper bounds agree; neither the
emptiness flags nor singleton-ness are consulted. -/
theorem C8_amended : ∀ L R : IntervalT,
    evaluateLogicOperation L R .eq = true ↔ (L.lb = R.lb ∧ L.ub = R.ub) := by
  intro L R
  simp [evaluateLogicOperation]

/-- Witness for C8_amended at a concrete input. -/
theorem C8_amended_witness :
    evaluateLogicOperation ⟨false, 2, 9⟩ ⟨false, 2, 9⟩ .eq = true :=
  (C8_amended ⟨false, 2, 9⟩ ⟨false, 2, 9⟩).mpr ⟨rfl, rfl⟩

/-- Claim C10 as stated is false: the store deep copy does not pass its
entries through the IntervalT copy constructor; it copies them with the
map's copy assignment, which preserves the emptiness flag, so copying a
store holding an empty interval preserves that emptiness. -/
theorem C10_counterexample :
    IntervalStore.deepCopy [("x", ⟨true, 3, 7⟩)] = [("x", ⟨true, 3, 7⟩)] ∧
    IntervalT.copy ⟨true, 3, 7⟩ = ⟨false, 3, 7⟩ ∧
    ([("x", (⟨true, 3, 7⟩ : IntervalT))] : IntervalStore)
      ≠ [("x", IntervalT.copy ⟨true, 3, 7⟩)] := by
  refine ⟨rfl, rfl, by decide⟩

/-- Claim C10, amended: the IntervalT copy constructor itself does reset the
emptiness flag (copying an empty interval gives a non-empty one with the
same bounds), but the store deep copy used by Store clone and Location
snapshotting reproduces every entry exactly, emptiness flag included. -/
theorem C10_amended :
    (∀ a : IntervalT, IntervalT.copy a = ⟨false, a.lb, a.ub⟩) ∧
    ∀ s : IntervalStore, IntervalStore.sortedKeys s = true →
      IntervalStore.deepCopy s = s := by
  constructor
  · intro a; rfl
  · exact deepCopy_sorted

/-- Witness for C10_amended on a concrete two-entry store containing an
empty-flagged interval. -/
theorem C10_amended_witness :
    IntervalStore.deepCopy [("x", ⟨true, 3, 8⟩), ("y", ⟨false, 1, 2⟩)]
      = [("x", ⟨true, 3, 8⟩), ("y", ⟨false, 1, 2⟩)] :=
  C10_amended.2 [("x", ⟨true, 3, 8⟩), ("y", ⟨false, 1, 2⟩)] (by decide)

/-- Claim C2: on the program int i; i = 0; while (i < 10) do i = i + 1 end;
postcondition i == 10, the claimed convergence never happens: EndWhile
inherits the base-class get_last_store, which returns the null pointer, so
the solver hands the following Postcondition a null store and the first
fixpoint pass aborts on the null dereference, before any stability check or
verdict. -/
theorem C2_loop_crash :
    analyze preStoreLoop loopSys 20 = .error .nullStore ∧
    solveSystem preStoreLoop loopSys = .error .nullStore := by
  exact ⟨rfl, rfl⟩

/-- Claim C3: the fixpoint do-while does not terminate normally on every
well-formed program: on the while-loop program above, whatever the
iteration budget, the very first pass dereferences a null store, so the
loop never completes a single iteration and never reaches stability. -/
theorem C3_no_normal_termination :
    ∀ n : Nat, runFix preStoreLoop (n + 1) loopSys = .error .nullStore := by
  intro n
  have h : solveSystem preStoreLoop loopSys = .error .nullStore := rfl
  unfold runFix
  rw [h]
  rfl

/-- Claim C6 as stated is false outside the zero-straddle test: for the
divisor [5, 0] (constructible, the constructor never checks lb less-equal
ub) the contains-zero test is false, so per the claim the four-corner rule
should apply with no warning; instead operator/ divides by the zero upper
bound and the program crashes; likewise [MIN_T, MIN_T] / [-1, -1] is a
non-zero-containing divisor whose corner MIN_T / -1 overflows (undefined
behaviour trapped on the usual targets). -/
theorem C6_counterexample :
    IntervalT.containsVal ⟨false, 5, 0⟩ 0 = false ∧
    IntervalT.div ⟨false, 1, 10⟩ ⟨false, 5, 0⟩ = none ∧
    divisionWarning ⟨false, 5, 0⟩ = false ∧
    IntervalT.containsVal ⟨false, -1, -1⟩ 0 = false ∧
    IntervalT.div ⟨false, minT, minT⟩ ⟨false, -1, -1⟩ = none := by
  refine ⟨rfl, by decide, rfl, rfl, by decide⟩

/-- Claim C6, amended: interval division returns top exactly on divisor
intervals whose bounds straddle zero, which is literally the contains-zero
test of the expression evaluator's warning; on any other divisor no warning
is emitted and, whenever no corner divides by a zero divisor bound and no
corner is MIN_T / -1, the result is the four-corner min/max rule with exact
truncated quotients; a divisor bound equal to zero (reachable only through
bound-crossed divisors such as [5, 0]) or a MIN_T dividend bound against a
-1 divisor bound makes the host division trap instead. -/
theorem C6_division : ∀ L R : IntervalT,
    (IntervalT.containsVal R 0 = true ↔ (R.lb ≤ 0 ∧ 0 ≤ R.ub)) ∧
    (R.lb ≤ 0 ∧ 0 ≤ R.ub →
      IntervalT.div L R = some topInterval ∧ divisionWarning R = true) ∧
    (¬(R.lb ≤ 0 ∧ 0 ≤ R.ub) →
      divisionWarning R = false ∧
      (minT ≤ L.lb → L.lb ≤ maxT → minT ≤ L.ub → L.ub ≤ maxT →
        R.lb ≠ 0 → R.ub ≠ 0 →
        ¬((L.lb = minT ∨ L.ub = minT) ∧ (R.lb = -1 ∨ R.ub = -1)) →
        IntervalT.div L R = some (fourCornerDivRule L R)) ∧
      ((R.lb = 0 ∨ R.ub = 0 ∨
          ((L.lb = minT ∨ L.ub = minT) ∧ (R.lb = -1 ∨ R.ub = -1))) →
        IntervalT.div L R = none)) := by
  intro L R
  refine ⟨?_, ?_, ?_⟩
  · simp [IntervalT.containsVal]
  · rintro ⟨h1, h2⟩
    constructor
    · unfold IntervalT.div
      rw [if_pos (by simp [h1, h2])]
      rfl
    · simp [divisionWarning, IntervalT.containsVal, h1, h2]
  · intro hn
    have hg : (decide (R.lb ≤ 0) && decide (0 ≤ R.ub)) = false := by
      rcases not_and_or.mp hn with h | h
      · simp [h]
      · simp [h]
    refine ⟨by simpa [divisionWarning, IntervalT.containsVal] using hg, ?_, ?_⟩
    · intro hl1 hl2 hl3 hl4 hz1 hz2 htrap
      have t1 := tdiv_range2 L.lb R.lb hl1 hl2 hz1
        (fun hc => htrap ⟨Or.inl hc.1, Or.inl hc.2⟩)
      have t2 := tdiv_range2 L.lb R.ub hl1 hl2 hz2
        (fun hc => htrap ⟨Or.inl hc.1, Or.inr hc.2⟩)
      have t3 := tdiv_range2 L.ub R.lb hl3 hl4 hz1
        (fun hc => htrap ⟨Or.inr hc.1, Or.inl hc.2⟩)
      have t4 := tdiv_range2 L.ub R.ub hl3 hl4 hz2
        (fun hc => htrap ⟨Or.inr hc.1, Or.inr hc.2⟩)
      simp only [IntervalT.div, fourCornerDivRule]
      rw [if_neg (by simp [hg]), if_neg (by simp only [not_or]; exact ⟨hz1, hz2, htrap⟩)]
      rw [wrap_eq_self _ t1.1 t1.2, wrap_eq_self _ t2.1 t2.2,
          wrap_eq_self _ t3.1 t3.2, wrap_eq_self _ t4.1 t4.2]
    · intro hc
      simp only [IntervalT.div]
      rw [if_neg (by simp [hg]), if_pos hc]

/-- Witness for C6_division: the zero-straddling divisor [-1, 1] gives top
plus the warning; [MIN_T, MAX_T] / [2, 2] (a dividend reaching both host
limits) follows the exact four-corner rule; the crossed divisor [5, 0]
passes the straddle test yet traps. -/
theorem C6_division_witness :
    IntervalT.div ⟨false, 1, 10⟩ ⟨false, -1, 1⟩ = some topInterval ∧
    divisionWarning ⟨false, -1, 1⟩ = true ∧
    IntervalT.div ⟨false, minT, maxT⟩ ⟨false, 2, 2⟩
      = some (fourCornerDivRule ⟨false, minT, maxT⟩ ⟨false, 2, 2⟩) ∧
    IntervalT.div ⟨false, 1, 10⟩ ⟨false, 5, 0⟩ = none := by
  have h1 := C6_division ⟨false, 1, 10⟩ ⟨false, -1, 1⟩
  have h2 := C6_division ⟨false, minT, maxT⟩ ⟨false, 2, 2⟩
  have h3 := C6_division ⟨false, 1, 10⟩ ⟨false, 5, 0⟩
  refine ⟨(h1.2.1 ⟨by decide, by decide⟩).1, (h1.2.1 ⟨by decide, by decide⟩).2, ?_, ?_⟩
  · exact (h2.2.2 (by decide)).2.1 (le_refl _) (by decide) (by decide) (le_refl _)
      (by decide) (by decide) (by decide)
  · exact (h3.2.2 (by decide)).2.2 (Or.inr (Or.inl rfl))

/-- Claim C4 as stated is false when sigma[var] carries the emptiness flag:
refining the empty-flagged interval (bounds [5, 5]) with x leq [10, 10]
should, per the claim, give the empty meet, but the code rebuilds the
interval from its raw bounds (dropping the flag) and returns the non-empty
[5, 5]. -/
theorem C4_counterexample :
    applyCommandToStore [("x", ⟨true, 5, 5⟩)] "x" ⟨false, 10, 10⟩ .leq
      = some [("x", ⟨false, 5, 5⟩)] ∧
    (refineSpecItv ⟨true, 5, 5⟩ ⟨false, 10, 10⟩ .leq).is_empty = true ∧
    applyCommandToStore [("x", ⟨true, 5, 5⟩)] "x" ⟨false, 10, 10⟩ .leq
      ≠ some (refineSpecStore [("x", ⟨true, 5, 5⟩)] "x" ⟨false, 10, 10⟩ .leq) := by
  refine ⟨by decide, by decide, by decide⟩

/-- Claim C4, amended: provided sigma[var] is non-empty (the code drops the
emptiness flag before meeting, resurrecting empty-flagged entries) and the
plus/minus-one adjustments of the strict comparisons do not wrap at the
host bounds, condition refinement computes exactly the spec's description:
the meet of sigma[var] with the half-line of the operation, R itself for
equality, and the low-side / high-side / inside / exact-match removal for
inequality. -/
theorem C4_amended : ∀ (s : IntervalStore) (var : VarName) (R : IntervalT)
    (op : LogicOp) (iv : IntervalT),
    IntervalStore.sortedKeys s = true →
    IntervalStore.lookupI s var = some iv →
    iv.is_empty = false →
    minT ≤ iv.lb → iv.lb ≤ maxT → minT ≤ iv.ub → iv.ub ≤ maxT →
    (op = .le → minT < R.ub ∧ R.ub ≤ maxT) →
    (op = .ge → minT ≤ R.lb ∧ R.lb < maxT) →
    (op = .neq → iv.lb < maxT ∧ minT < iv.ub) →
    applyCommandToStore s var R op = some (refineSpecStore s var R op) := by
  intro s var R op iv hs hl he hlb1 hlb2 hub1 hub2 hle hge hneq
  have htouch : IntervalStore.touch s var = s := touch_of_lookup s var iv hl
  have hget : IntervalStore.getD s var = iv := by
    unfold IntervalStore.getD
    rw [hl]
    rfl
  obtain ⟨e, ivlb, ivub⟩ := iv
  have he2 : e = false := he
  subst he2
  dsimp only at hlb1 hlb2 hub1 hub2
  cases op with
  | leq =>
    simp only [applyCommandToStore, refineSpecStore, refineSpecItv, htouch, hget]
    simp [IntervalT.meet, IntervalT.meetSpec, IntervalT.make]
  | le =>
    obtain ⟨hw1, hw2⟩ := hle rfl
    have hw : wrap (R.ub - 1) = R.ub - 1 :=
      wrap_eq_self _ (by omega) (by omega)
    simp only [applyCommandToStore, refineSpecStore, refineSpecItv, htouch, hget, hw]
    simp [IntervalT.meet, IntervalT.meetSpec, IntervalT.make]
  | geq =>
    simp only [applyCommandToStore, refineSpecStore, refineSpecItv, htouch, hget]
    simp [IntervalT.meet, IntervalT.meetSpec, IntervalT.make]
  | ge =>
    obtain ⟨hw1, hw2⟩ := hge rfl
    have hw : wrap (R.lb + 1) = R.lb + 1 :=
      wrap_eq_self _ (by omega) (by omega)
    simp only [applyCommandToStore, refineSpecStore, refineSpecItv, htouch, hget, hw]
    simp [IntervalT.meet, IntervalT.meetSpec, IntervalT.make]
  | eq =>
    simp only [applyCommandToStore, refineSpecStore, refineSpecItv, htouch, hget]
    cases hR : R.is_empty <;>
      simp [IntervalT.meet, IntervalT.meetSpec, IntervalT.make, hR]
  | neq =>
    obtain ⟨hn1, hn2⟩ := hneq rfl
    have hn1b : ivlb < maxT := hn1
    have hn2b : minT < ivub := hn2
    have hw1 : wrap (ivlb + 1) = ivlb + 1 :=
      wrap_eq_self _ (by omega) (by omega)
    have hw2 : wrap (ivub - 1) = ivub - 1 :=
      wrap_eq_self _ (by omega) (by omega)
    simp only [applyCommandToStore, refineSpecStore, refineSpecItv,
      IntervalStore.setEmptyAt, htouch, hget, hw1, hw2, IntervalT.make]
    split_ifs with h1 h2 h3 h4 h5 h6
    · rfl
    · rfl
    · rfl
    · rfl
    · rw [set_lookup_self s var ⟨false, ivlb, ivub⟩ hs hl]
    · rfl
    · exfalso
      simp only [Bool.and_eq_true, decide_eq_true_eq] at h5 h6
      omega

/-- Witness for C4_amended: refining x in [0, 10] with x leq [3, 3]. -/
theorem C4_amended_witness :
    applyCommandToStore [("x", ⟨false, 0, 10⟩)] "x" ⟨false, 3, 3⟩ .leq
      = some (refineSpecStore [("x", ⟨false, 0, 10⟩)] "x" ⟨false, 3, 3⟩ .leq) :=
  C4_amended [("x", ⟨false, 0, 10⟩)] "x" ⟨false, 3, 3⟩ .leq ⟨false, 0, 10⟩
    rfl (by decide) rfl (by decide) (by decide) (by decide) (by decide)
    (fun h => nomatch h) (fun h => nomatch h) (fun h => nomatch h)

/-- Witness for C3_no_normal_termination at the concrete budget 5. -/
theorem C3_no_normal_termination_witness :
    runFix preStoreLoop 5 loopSys = .error .nullStore :=
  C3_no_normal_termination 4

/-- Witness for C5_amended at concrete empty-flagged operands, with the
multiplication and division conjuncts discharged at their concrete results
[3, 8] and [0, 0]. -/
theorem C5_amended_witness :
    (IntervalT.add ⟨true, 1, 2⟩ ⟨true, 3, 4⟩).is_empty = false ∧
    (IntervalT.mk false 3 8).is_empty = false ∧
    (IntervalT.mk false 0 0).is_empty = false := by
  have h := C5_amended ⟨true, 1, 2⟩ ⟨true, 3, 4⟩
  exact ⟨h.1, h.2.2.1 ⟨false, 3, 8⟩ (by decide),
    h.2.2.2.1 ⟨false, 0, 0⟩ (by decide)⟩
